import Mathlib

/-!
Verification development for the gossh batch SSH execution engine.

The Go sources embedded here are `internal/cmd/vault/encrypt_file.go`
(the vault encrypt-file command) and the `sshtask` package file
(task orchestration, host expansion, authentication resolution and
output handling).  Pure fragments of the Go code are translated into
executable Lean definitions; filesystem reads, terminal prompts and
the AES codec (whose sources are outside this tree) appear as
explicit parameters.  Machine-checked theorems relate each definition
to the natural-language specification of the repository.
-/

set_option autoImplicit false

namespace Gossh

/-! ## String helpers modelling Go standard library operations

Go's `strings.TrimSpace` drops leading and trailing Unicode
whitespace; the inputs handled by gossh are ASCII, so the ASCII
whitespace set is modelled. -/

/-- ASCII whitespace predicate mirroring the characters
`unicode.IsSpace` accepts in the ASCII range. -/
def goIsSpace (c : Char) : Bool :=
  c = ' ' || c = '\t' || c = '\n' || c = '\r' || c = '\x0b' || c = '\x0c'

/-- Model of Go `strings.TrimSpace`: drop leading and trailing
whitespace characters. -/
def trimSpace (s : String) : String :=
  ⟨((s.data.dropWhile goIsSpace).reverse.dropWhile goIsSpace).reverse⟩

/-- Claim-side comparison function following the words of the
specification sentence for the password file: content "trimmed of
trailing whitespace" only, leading whitespace kept.  It exists to be
diffed against `trimSpace`, which is what the source actually
applies. -/
def specTrimTrailing (s : String) : String :=
  ⟨((s.data.reverse.dropWhile goIsSpace)).reverse⟩

/-- Model of Go `strings.TrimSuffix s "\n"`: remove one trailing
newline when present. -/
def trimSuffixNewline (s : String) : String :=
  match s.data.reverse with
  | '\n' :: rest => ⟨rest.reverse⟩
  | _ => s

/-- Split a character list at newline characters; every newline is a
separator, so `n` newlines yield `n + 1` fields (model of Go
`strings.Split s "\n"`). -/
def splitNlChars : List Char → List (List Char)
  | [] => [[]]
  | '\n' :: rest => [] :: splitNlChars rest
  | c :: rest =>
    match splitNlChars rest with
    | [] => [[c]]
    | l :: ls => (c :: l) :: ls

/-- Split a string into its newline-separated lines. -/
def splitLines (s : String) : List String :=
  (splitNlChars s.data).map (fun cs => ⟨cs⟩)

/-- Join lines back with newline separators. -/
def joinLines (ls : List String) : String :=
  String.intercalate "\n" ls

/-- Model of Go `strings.ReplaceAll s "\r\n" "\n"`: left-to-right
replacement of every CRLF pair with a bare newline. -/
def stripCRLF : List Char → List Char
  | '\r' :: '\n' :: rest => '\n' :: stripCRLF rest
  | c :: rest => c :: stripCRLF rest
  | [] => []

/-! ## Vault ciphertext detection and the encrypt-file command -/

/-- Magic first-line header of the AES-256 vault envelope. -/
def vaultHeader : String := "$ANSIBLE_VAULT;1.1;AES256"

/-- Modelled from the spec: `aes.IsAES256CipherText` lives in
`internal/pkg/aes`, which is not under the embedded sources.  The
specification states that `isCiphertext` returns true iff a trimmed
input begins with the magic header. -/
def isAES256CipherText (s : String) : Bool :=
  vaultHeader.data.isPrefixOf (trimSpace s).data

/-- Sanity check of the modelled detection against scenario 3 of the
spec. -/
theorem isAES256CipherText_scenario3 :
    isAES256CipherText "$ANSIBLE_VAULT;1.1;AES256\n3132\n" = true ∧
    isAES256CipherText "hunter2" = false := by
  decide

/-- Observable effect of one run of the vault encrypt-file command. -/
inductive FileEffect where
  /-- Encrypted content printed to stdout (output file `-`). -/
  | printed (content : String)
  /-- Encrypted content appended to a distinct output file. -/
  | appended (path : String) (content : String)
  /-- Original file truncated and rewritten with the content. -/
  | truncatedWrite (path : String) (content : String)
  deriving DecidableEq

/-- Shallow embedding of the `Run` body of the vault `encrypt-file`
command.  Reading the input file and the vault password prompt are
parameters (`content`, `vaultPass`); the AES-256 encoder from
`internal/pkg/aes` (not under the embedded sources) is the parameter
`encode`.  `util.CheckErr` aborts the process, modelled as
`Except.error`; the branches on `outputFile` follow the source. -/
def encryptFileRun (encode : String → String → String) (vaultPass : String)
    (file content outputFile : String) : Except String (List FileEffect) :=
  if isAES256CipherText content then
    .error ("file '" ++ file ++ "' is already encrypted")
  else
    let encryptContent := encode content vaultPass
    if outputFile ≠ "" then
      if outputFile = "-" then
        .ok [.printed encryptContent]
      else
        .ok [.appended outputFile encryptContent]
    else
      .ok [.truncatedWrite file encryptContent]

/-! ## Theorems for claim C8 -/

/-- C8: a file whose content already satisfies `isAES256CipherText`
makes the vault encrypt-file command fail with an "already encrypted"
error, producing no file effect at all; a file that is not ciphertext
is encrypted, and (in the default in-place mode) rewritten with the
encoded content. -/
theorem encryptFile_rejects_ciphertext
    (encode : String → String → String) (vaultPass file content outputFile : String) :
    (isAES256CipherText content = true →
      encryptFileRun encode vaultPass file content outputFile =
        .error ("file '" ++ file ++ "' is already encrypted")) ∧
    (isAES256CipherText content = false →
      encryptFileRun encode vaultPass file content "" =
        .ok [.truncatedWrite file (encode content vaultPass)]) := by
  constructor
  · intro h
    simp [encryptFileRun, h]
  · intro h
    simp [encryptFileRun, h]

/-- Witness for C8: a concrete ciphertext file is rejected and a
concrete plaintext file is encrypted in place. -/
theorem encryptFile_rejects_ciphertext_witness :
    encryptFileRun (fun c _ => c ++ "!") "vp" "auth.txt"
        "$ANSIBLE_VAULT;1.1;AES256\n3132" "" =
      .error "file 'auth.txt' is already encrypted" ∧
    encryptFileRun (fun c _ => c ++ "!") "vp" "auth.txt" "hunter2" "" =
      .ok [.truncatedWrite "auth.txt" "hunter2!"] := by
  have h := encryptFile_rejects_ciphertext (fun c _ => c ++ "!") "vp" "auth.txt"
    "$ANSIBLE_VAULT;1.1;AES256\n3132" ""
  have h2 := encryptFile_rejects_ciphertext (fun c _ => c ++ "!") "vp" "auth.txt"
    "hunter2" ""
  exact ⟨h.1 (by decide), h2.2 (by decide)⟩

/-! ## Password resolution (`getPassword` / `assignRealPass`)

The AES decoder `aes.AES256Decode` and the vault password source
`vault.GetVaultPassword` live outside the embedded sources; they are
the parameters `decode` and `vaultPass`.  A `decode` result of `none`
models a decryption failure, on which the source calls
`util.CheckErr` and the process aborts. -/

/-- Shallow embedding of `assignRealPass`: when the current value is
a vault ciphertext it is replaced by its decryption, otherwise it is
kept; a failed decryption aborts. -/
def assignRealPass (decode : String → String → Option String)
    (vaultPass pass : String) : Option String :=
  if isAES256CipherText pass then decode pass vaultPass else some pass

/-- Shallow embedding of `Task.getPassword`.  `readFile` models
`ioutil.ReadFile` (`none` is a read error); `promptPass` is the value
`getPasswordFromPrompt` would return.  The source reads the password
file first, then lets a non-empty flag value override it, then calls
`assignRealPass`, and only then consults `askPass`; a pending read
error is returned to the caller (which aborts). -/
def getPassword (decode : String → String → Option String)
    (readFile : String → Option String)
    (vaultPass promptPass authFile passwordFlag : String) (askPass : Bool) :
    Except String String :=
  let fileStep : String × Bool :=
    if authFile ≠ "" then
      match readFile authFile with
      | none => ("", true)
      | some content => (trimSpace content, false)
    else ("", false)
  let password1 := if passwordFlag ≠ "" then passwordFlag else fileStep.1
  match assignRealPass decode vaultPass password1 with
  | none => .error "decrypt password/passphrase which encrypted by vault failed"
  | some password2 =>
    let password3 := if askPass then promptPass else password2
    if fileStep.2 then .error ("read auth file '" ++ authFile ++ "' failed")
    else .ok password3

/-- Value the password file contributes before the flag override:
empty when no file is configured or the read fails, otherwise the
trimmed content. -/
def filePassword (readFile : String → Option String) (authFile : String) : String :=
  if authFile = "" then ""
  else
    match readFile authFile with
    | none => ""
    | some content => trimSpace content

/-- Evaluation lemma: `getPassword` restructured as one selection.
The base value is the flag when non-empty, else the file
contribution; it passes through `assignRealPass`; a read error is
reported after decryption; otherwise `askPass` selects between the
prompt and the decrypted base. -/
theorem getPassword_eq (decode : String → String → Option String)
    (readFile : String → Option String)
    (vaultPass promptPass authFile passwordFlag : String) (askPass : Bool) :
    getPassword decode readFile vaultPass promptPass authFile passwordFlag askPass =
      (match assignRealPass decode vaultPass
          (if passwordFlag ≠ "" then passwordFlag else filePassword readFile authFile) with
       | none => .error "decrypt password/passphrase which encrypted by vault failed"
       | some v =>
         if authFile ≠ "" ∧ readFile authFile = none then
           .error ("read auth file '" ++ authFile ++ "' failed")
         else .ok (if askPass then promptPass else v)) := by
  by_cases haf : authFile = "" <;>
    rcases hrf : readFile authFile with _ | c <;>
      simp [getPassword, filePassword, haf, hrf]

/-! ## Theorems for claim C2 -/

/-- C2 counterexample: with no flag value and no `askPass`, a
password file whose content is " p" (leading space) resolves to "p":
the source applies `strings.TrimSpace`, which trims leading and
trailing whitespace, while the claim predicts trailing-only trimming
(" p"). -/
theorem getPassword_trim_counterexample :
    getPassword (fun _ _ => none) (fun _ => some " p") "" "x" "af" "" false =
      .ok "p" ∧
    specTrimTrailing " p" = " p" ∧ ("p" : String) ≠ " p" := by
  refine ⟨rfl, rfl, by decide⟩

/-- C2 amended: the resolved login password follows the priority
prompt-if-askPass, else non-empty flag value, else password-file
content trimmed of leading AND trailing whitespace; the flag- or
file-selected value is passed through vault decryption
(`assignRealPass`) before the `askPass` check. -/
theorem getPassword_priority
    (decode : String → String → Option String) (readFile : String → Option String)
    (vaultPass promptPass authFile passwordFlag fileContent : String) (askPass : Bool)
    (hread : authFile = "" ∨ readFile authFile = some fileContent) :
    getPassword decode readFile vaultPass promptPass authFile passwordFlag askPass =
      (match assignRealPass decode vaultPass
          (if passwordFlag ≠ "" then passwordFlag
           else if authFile = "" then "" else trimSpace fileContent) with
       | none => .error "decrypt password/passphrase which encrypted by vault failed"
       | some v => .ok (if askPass then promptPass else v)) := by
  rw [getPassword_eq]
  rcases hread with h | h
  · simp [filePassword, h]
  · by_cases hf : authFile = ""
    · simp [filePassword, hf]
    · simp [filePassword, hf, h]

/-- Witness for C2's amended theorem at a concrete input: file
content " s " resolves, with no flag and `askPass` off, to "s". -/
theorem getPassword_priority_witness :
    getPassword (fun _ _ => none) (fun _ => some " s ") "" "pp" "af" "" false =
      .ok "s" := by
  have h := getPassword_priority (fun _ _ => none) (fun _ => some " s ") ""
    "pp" "af" "" " s " false (Or.inr rfl)
  simpa using h

/-! ## Theorems for claim C10 -/

/-- C10: `assignRealPass` runs before the `askPass` prompt, so in
every completed resolution with `askPass` set the prompted value is
returned verbatim (never vault-decrypted, whatever it is), while a
flag-sourced or file-sourced ciphertext is decrypted. -/
theorem getPassword_prompt_verbatim
    (decode : String → String → Option String) (readFile : String → Option String)
    (vaultPass promptPass authFile passwordFlag : String) :
    (∀ v, assignRealPass decode vaultPass
          (if passwordFlag ≠ "" then passwordFlag
           else filePassword readFile authFile) = some v →
        ¬(authFile ≠ "" ∧ readFile authFile = none) →
        getPassword decode readFile vaultPass promptPass authFile passwordFlag true =
          .ok promptPass) ∧
    (∀ d, passwordFlag ≠ "" → isAES256CipherText passwordFlag = true →
        decode passwordFlag vaultPass = some d → authFile = "" →
        getPassword decode readFile vaultPass promptPass authFile passwordFlag false =
          .ok d) ∧
    (∀ d content, passwordFlag = "" → authFile ≠ "" →
        readFile authFile = some content →
        isAES256CipherText (trimSpace content) = true →
        decode (trimSpace content) vaultPass = some d →
        getPassword decode readFile vaultPass promptPass authFile passwordFlag false =
          .ok d) := by
  refine ⟨?_, ?_, ?_⟩
  · intro v hdec hre
    rw [getPassword_eq, hdec]
    simp [hre]
  · intro d hflag hct hdec hfile
    rw [getPassword_eq]
    simp [hflag, hfile, filePassword, assignRealPass, hct, hdec]
  · intro d content hflag hfile hrf hct hdec
    rw [getPassword_eq]
    simp [hflag, hfile, hrf, filePassword, assignRealPass, hct, hdec]

/-- Witness for C10: a prompted value that is itself a vault
ciphertext is returned raw, while the same ciphertext provided via
the flag or via the password file is decrypted to "real". -/
theorem getPassword_prompt_verbatim_witness :
    getPassword (fun _ _ => some "real") (fun _ => none) "vp"
        "$ANSIBLE_VAULT;1.1;AES256\n31" "" "" true =
      .ok "$ANSIBLE_VAULT;1.1;AES256\n31" ∧
    getPassword (fun _ _ => some "real") (fun _ => none) "vp" "pp" ""
        "$ANSIBLE_VAULT;1.1;AES256\n31" false = .ok "real" ∧
    getPassword (fun _ _ => some "real")
        (fun _ => some "$ANSIBLE_VAULT;1.1;AES256\n31 ") "vp" "pp" "af" "" false =
      .ok "real" := by
  refine ⟨?_, ?_, ?_⟩
  · exact (getPassword_prompt_verbatim (fun _ _ => some "real") (fun _ => none)
      "vp" "$ANSIBLE_VAULT;1.1;AES256\n31" "" "").1 ""
      (by decide) (by decide)
  · exact (getPassword_prompt_verbatim (fun _ _ => some "real") (fun _ => none)
      "vp" "pp" "" "$ANSIBLE_VAULT;1.1;AES256\n31").2.1 "real"
      (by decide) (by decide) rfl rfl
  · exact (getPassword_prompt_verbatim (fun _ _ => some "real")
      (fun _ => some "$ANSIBLE_VAULT;1.1;AES256\n31 ") "vp" "pp" "af" "").2.2
      "real" "$ANSIBLE_VAULT;1.1;AES256\n31 " rfl (by decide) rfl (by decide) rfl

/-! ## Authentication method assembly (`getSSHAuthMethods`) -/

/-- One candidate SSH authentication method, in the shape the source
appends them: `ssh.Password`, `ssh.PublicKeys` over the signers
parsed from identity files, and the agent callback. -/
inductive AuthMethod where
  /-- Password authentication carrying the secret used. -/
  | password (secret : String)
  /-- Public-key authentication from parsed identity files. -/
  | publicKeys
  /-- Agent-backed public-key callback over `SSH_AUTH_SOCK`. -/
  | agentAuth
  deriving DecidableEq

/-- Shallow embedding of `Task.getItentityFiles` (source spelling):
a leading "~/" is replaced by the home directory. -/
def getItentityFiles (homeDir : String) (identityFiles : List String) : List String :=
  identityFiles.map (fun file =>
    if file.startsWith "~/" then homeDir ++ file.drop 1 else file)

/-- Shallow embedding of `Task.getSSHAuthMethods`.  Key parsing
(`getSigners`, which reads the filesystem and parses private keys)
is abstracted by `signerCount`, the number of signers obtained from
`keyfiles`; `dialOk` is whether `net.Dial` on `SSH_AUTH_SOCK`
succeeds; `promptPass` is what `getPasswordFromPrompt` would return.
The result pairs the method list with the final value of the
by-reference `password`. -/
def getSSHAuthMethods (password : String) (keyfiles : List String)
    (signerCount : Nat) (sshAuthSock : String) (dialOk : Bool) (useSudo : Bool)
    (promptPass : String) : List AuthMethod × String :=
  let auths1 : List AuthMethod :=
    if password ≠ "" then [AuthMethod.password password] else []
  let auths2 : List AuthMethod :=
    if keyfiles ≠ [] ∧ signerCount ≠ 0 then auths1 ++ [AuthMethod.publicKeys]
    else auths1
  let auths3 : List AuthMethod :=
    if sshAuthSock ≠ "" ∧ dialOk = true then auths2 ++ [AuthMethod.agentAuth]
    else auths2
  if auths3 = [] then
    ([AuthMethod.password promptPass], promptPass)
  else if password = "" ∧ useSudo = true then
    (auths3 ++ [AuthMethod.password promptPass], promptPass)
  else
    (auths3, password)

/-! ## Theorems for claim C1 -/

/-- C1: the assembled method list is ordered password (if the
resolved password is non-empty), then public keys (if identity files
yielded signers), then agent (if `SSH_AUTH_SOCK` is set and
dialable); a prompted password is appended at the end iff no method
was gathered or sudo is requested while the password is still
empty. -/
theorem getSSHAuthMethods_order (password : String) (keyfiles : List String)
    (signerCount : Nat) (sshAuthSock : String) (dialOk useSudo : Bool)
    (promptPass : String) :
    (getSSHAuthMethods password keyfiles signerCount sshAuthSock dialOk useSudo
        promptPass).1 =
      (if password ≠ "" then [AuthMethod.password password] else []) ++
      (if keyfiles ≠ [] ∧ signerCount ≠ 0 then [AuthMethod.publicKeys] else []) ++
      (if sshAuthSock ≠ "" ∧ dialOk = true then [AuthMethod.agentAuth] else []) ++
      (if ((if password ≠ "" then [AuthMethod.password password] else []) ++
           (if keyfiles ≠ [] ∧ signerCount ≠ 0 then [AuthMethod.publicKeys] else []) ++
           (if sshAuthSock ≠ "" ∧ dialOk = true then [AuthMethod.agentAuth] else []) =
             []) ∨
          (useSudo = true ∧ password = "") then
        [AuthMethod.password promptPass]
      else []) := by
  by_cases hp : password = "" <;>
    by_cases hk : keyfiles ≠ [] ∧ signerCount ≠ 0 <;>
      by_cases ha : sshAuthSock ≠ "" ∧ dialOk = true <;>
        by_cases hs : useSudo = true <;>
          simp [getSSHAuthMethods, hp, hk, ha, hs]

/-! ## Host pattern expansion

The expander `expandhost.PatternToHosts` is a third-party library
(`github.com/go-project-pkg/expandhost`), not part of this tree; the
specification describes it as component C1 with the bracket grammar
of spec sections 3 and 4.1, so it is modelled from the spec here.
Bracket groups cannot nest, which lets the pattern be parsed by
splitting on the bracket characters. -/

/-- Split a character list at every occurrence of `sep`; `n`
separators yield `n + 1` fields. -/
def splitSep (sep : Char) : List Char → List (List Char)
  | [] => [[]]
  | c :: rest =>
    if c = sep then [] :: splitSep sep rest
    else
      match splitSep sep rest with
      | [] => [[c]]
      | l :: ls => (c :: l) :: ls

/-- Decimal digit characters of a natural number (own printer so
that non-emptiness is structural). -/
def natDigitsAux : Nat → Nat → List Char
  | 0, _ => []
  | fuel + 1, n =>
    if n = 0 then []
    else natDigitsAux fuel (n / 10) ++ [Char.ofNat (48 + n % 10)]

/-- Decimal representation of a natural number. -/
def natChars (n : Nat) : List Char :=
  if n = 0 then ['0'] else natDigitsAux n n

/-- Numeric value of a digit string. -/
def digitsToNat (cs : List Char) : Nat :=
  cs.foldl (fun n c => n * 10 + (c.toNat - 48)) 0

/-- Whether a digit string carries a leading zero (and hence asks
for zero padding of the produced values). -/
def hasLeadingZero : List Char → Bool
  | '0' :: _ :: _ => true
  | _ => false

/-- Left-pad a number's digits with zeros up to `width`. -/
def padNum (width n : Nat) : List Char :=
  let s := natChars n
  List.replicate (width - s.length) '0' ++ s

/-- Modelled from the spec: one bracket-group ITEM is either a
numeric range `A-B` (with `A ≤ B`, produced values padded to the
maximum width when zero-padded) or a literal token; an empty ITEM is
rejected, which also rejects the empty group. -/
def expandItem (item : List Char) : Except String (List (List Char)) :=
  if item = [] then .error "empty item in bracket group"
  else
    match splitSep '-' item with
    | [a, b] =>
      if a ≠ [] ∧ b ≠ [] ∧ a.all Char.isDigit ∧ b.all Char.isDigit then
        if digitsToNat b < digitsToNat a then .error "invalid numeric range"
        else
          .ok ((List.range (digitsToNat b + 1 - digitsToNat a)).map
            (fun i =>
              padNum
                (if hasLeadingZero a || hasLeadingZero b then max a.length b.length
                 else 0)
                (digitsToNat a + i)))
      else .ok [item]
    | _ => .ok [item]

/-- Expand every ITEM of a comma-separated group body, propagating
the first error. -/
def mapExpandItem : List (List Char) → Except String (List (List (List Char)))
  | [] => .ok []
  | i :: is =>
    match expandItem i with
    | .error e => .error e
    | .ok a =>
      match mapExpandItem is with
      | .error e => .error e
      | .ok rest => .ok (a :: rest)

/-- Modelled from the spec: the alternatives a bracket group body
offers, the concatenation of its items' expansions. -/
def expandGroup (gc : List Char) : Except String (List (List Char)) :=
  match mapExpandItem (splitSep ',' gc) with
  | .error e => .error e
  | .ok alts => .ok alts.flatten

/-- Parsed segments after splitting the pattern on `'['`: each
segment must contain exactly one `']'`, separating the group body
from the literal run that follows it. -/
def parseSegs : List (List Char) → Except String (List (List (List Char)))
  | [] => .ok []
  | seg :: rest =>
    match splitSep ']' seg with
    | [gc, lit] =>
      match expandGroup gc with
      | .error e => .error e
      | .ok alts =>
        match parseSegs rest with
        | .error e => .error e
        | .ok tail => .ok ([alts] ++ (if lit = [] then [] else [[lit]]) ++ tail)
    | _ => .error "unbalanced brackets in host pattern"

/-- Cartesian concatenation of the per-part alternatives, leftmost
part varying slowest (the left-to-right product of the spec). -/
def cartesianConcat : List (List (List Char)) → List (List Char)
  | [] => [[]]
  | part :: parts =>
    part.flatMap (fun choice => (cartesianConcat parts).map (fun rest => choice ++ rest))

/-- Assembly of a pattern's hosts from the fields obtained by
splitting it on `'['`: the leading literal (which must not contain a
stray `']'`), then the parsed segments. -/
def patternFromSplit : List (List Char) → Except String (List String)
  | [] => .error "unbalanced brackets in host pattern"
  | lit0 :: segs =>
    if lit0.contains ']' then .error "unbalanced brackets in host pattern"
    else
      match parseSegs segs with
      | .error e => .error e
      | .ok tail =>
        .ok ((cartesianConcat ((if lit0 = [] then [] else [[lit0]]) ++ tail)).map
          (fun cs => ⟨cs⟩))

/-- Modelled from the spec: `expandhost.PatternToHosts`, expanding a
bracket pattern into concrete host names; fails on unbalanced
brackets, an empty group/ITEM, or a reversed numeric range. -/
def patternToHosts (pattern : String) : Except String (List String) :=
  patternFromSplit (splitSep '[' pattern.data)

/-- Sanity check of the modelled expander against scenario 1 of the
spec: zero-padded ranges, item lists, and the left-to-right
Cartesian product. -/
theorem patternToHosts_scenario1 :
    patternToHosts "foo[01-03].idc[1,3].bar" =
      .ok ["foo01.idc1.bar", "foo01.idc3.bar", "foo02.idc1.bar",
        "foo02.idc3.bar", "foo03.idc1.bar", "foo03.idc3.bar"] := rfl

/-- Shallow embedding of the expansion loops of `Task.getAllHosts`:
trim each entry, skip blanks, expand, concatenate in input order;
an expansion error aborts with the source's message prefix. -/
def expandPatterns : List String → Except String (List String)
  | [] => .ok []
  | p :: ps =>
    let q := trimSpace p
    if q = "" then expandPatterns ps
    else
      match patternToHosts q with
      | .error e => .error ("invalid host pattern: " ++ e)
      | .ok hs => (expandPatterns ps).map (fun rest => hs ++ rest)

/-- Modelled from the spec: `util.RemoveDuplStr` is not under the
embedded sources; the spec says the working list is deduplicated
"via a set keyed on the literal string, preserving first-seen
order". -/
def removeDuplStr (xs : List String) : List String :=
  xs.foldl (fun acc x => if x ∈ acc then acc else acc ++ [x]) []

/-- Hosts-file contribution inside `Task.getAllHosts`: the lines of
the file content (split after dropping one trailing newline) are
expanded like command-line patterns; no configured file contributes
nothing. -/
def hostsFileExpansion (hostsFileContent : Option String) :
    Except String (List String) :=
  match hostsFileContent with
  | none => .ok []
  | some content => expandPatterns (splitLines (trimSuffixNewline content))

/-- Shallow embedding of `Task.getAllHosts`: command-line patterns
first, then the hosts-file contribution, then the emptiness check,
then deduplication. -/
def getAllHosts (cmdHosts : List String) (hostsFileContent : Option String) :
    Except String (List String) :=
  match expandPatterns cmdHosts with
  | .error e => .error e
  | .ok hs1 =>
    match hostsFileExpansion hostsFileContent with
    | .error e => .error e
    | .ok hs2 =>
      if hs1 ++ hs2 = [] then
        .error "need target hosts, you can specify hosts file by flag '-H' or provide host/pattern as positional arguments"
      else .ok (removeDuplStr (hs1 ++ hs2))

/-- Claim-side stable deduplication: keep the first occurrence of
every element, drop every element equal to an earlier one. -/
def dedupFirst : List String → List String
  | [] => []
  | x :: xs => x :: dedupFirst (xs.filter (fun y => y ≠ x))
termination_by l => l.length
decreasing_by
  simp only [List.length_cons]
  exact Nat.lt_succ_of_le (List.length_filter_le _ _)

/-! ## Non-emptiness of expanded hosts -/

theorem natChars_ne_nil (n : Nat) : natChars n ≠ [] := by
  unfold natChars
  split
  · simp
  · rename_i h
    cases n with
    | zero => exact absurd rfl h
    | succ m => simp [natDigitsAux]

theorem padNum_ne_nil (width n : Nat) : padNum width n ≠ [] := by
  intro h
  have h2 : List.replicate (width - (natChars n).length) '0' ++ natChars n = [] := h
  exact natChars_ne_nil n (List.append_eq_nil.mp h2).2

theorem expandItem_ne_nil (item : List Char) (alts : List (List Char))
    (h : expandItem item = .ok alts) : ∀ a ∈ alts, a ≠ [] := by
  unfold expandItem at h
  split at h
  · exact absurd h (by simp)
  · rename_i hitem
    split at h
    · split at h
      · split at h
        · exact absurd h (by simp)
        · intro a ha
          rw [← Except.ok.inj h] at ha
          simp only [List.mem_map, List.mem_range] at ha
          obtain ⟨i, _, rfl⟩ := ha
          exact padNum_ne_nil _ _
      · intro a ha
        rw [← Except.ok.inj h] at ha
        simp only [List.mem_singleton] at ha
        subst ha
        exact hitem
    · intro a ha
      rw [← Except.ok.inj h] at ha
      simp only [List.mem_singleton] at ha
      subst ha
      exact hitem

theorem mapExpandItem_ne_nil :
    ∀ (items : List (List Char)) (res : List (List (List Char))),
      mapExpandItem items = .ok res → ∀ alts ∈ res, ∀ a ∈ alts, a ≠ [] := by
  intro items
  induction items with
  | nil =>
    intro res h
    simp only [mapExpandItem] at h
    rw [← Except.ok.inj h]
    simp
  | cons i is ih =>
    intro res h
    simp only [mapExpandItem] at h
    split at h
    · exact absurd h (by simp)
    · rename_i a h1
      split at h
      · exact absurd h (by simp)
      · rename_i rest h2
        rw [← Except.ok.inj h]
        intro alts halts
        rcases List.mem_cons.mp halts with rfl | hmem
        · exact expandItem_ne_nil i alts h1
        · exact ih rest h2 alts hmem

theorem expandGroup_ne_nil (gc : List Char) (alts : List (List Char))
    (h : expandGroup gc = .ok alts) : ∀ a ∈ alts, a ≠ [] := by
  unfold expandGroup at h
  split at h
  · exact absurd h (by simp)
  · rename_i res h1
    rw [← Except.ok.inj h]
    intro a ha
    rcases List.mem_flatten.mp ha with ⟨l, hl, hal⟩
    exact mapExpandItem_ne_nil _ res h1 l hl a hal

theorem parseSegs_ne_nil :
    ∀ (segs : List (List Char)) (parts : List (List (List Char))),
      parseSegs segs = .ok parts → ∀ part ∈ parts, ∀ a ∈ part, a ≠ [] := by
  intro segs
  induction segs with
  | nil =>
    intro parts h
    simp only [parseSegs] at h
    rw [← Except.ok.inj h]
    simp
  | cons seg rest ih =>
    intro parts h
    simp only [parseSegs] at h
    split at h
    · rename_i gc lit _
      split at h
      · exact absurd h (by simp)
      · rename_i alts h1
        split at h
        · exact absurd h (by simp)
        · rename_i tail h2
          rw [← Except.ok.inj h]
          intro part hpart
          simp only [List.singleton_append, List.cons_append, List.nil_append,
            List.mem_cons, List.mem_append] at hpart
          rcases hpart with rfl | hpart
          · exact expandGroup_ne_nil gc part h1
          · rcases hpart with hlit | htail
            · by_cases hl : lit = []
              · simp [hl] at hlit
              · simp only [hl, if_false, List.mem_singleton] at hlit
                subst hlit
                intro a ha
                simp only [List.mem_singleton] at ha
                subst ha
                exact hl
            · exact ih tail h2 part htail
    · exact absurd h (by simp)

theorem parseSegs_parts_ne_nil (seg : List Char) (rest : List (List Char))
    (parts : List (List (List Char))) (h : parseSegs (seg :: rest) = .ok parts) :
    parts ≠ [] := by
  simp only [parseSegs] at h
  split at h
  · rename_i gc lit _
    split at h
    · exact absurd h (by simp)
    · split at h
      · exact absurd h (by simp)
      · rw [← Except.ok.inj h]
        simp
  · exact absurd h (by simp)

theorem splitSep_ne_nil (sep : Char) (l : List Char) : splitSep sep l ≠ [] := by
  cases l with
  | nil => simp [splitSep]
  | cons c rest =>
    simp only [splitSep]
    split
    · simp
    · split <;> simp

theorem splitSep_head_or_tail (sep : Char) (l : List Char) (hL : l ≠ [])
    (lit0 : List Char) (segs : List (List Char))
    (h : splitSep sep l = lit0 :: segs) : lit0 ≠ [] ∨ segs ≠ [] := by
  cases l with
  | nil => exact absurd rfl hL
  | cons c rest =>
    simp only [splitSep] at h
    split at h
    · right
      rw [← (List.cons.inj h).2]
      exact splitSep_ne_nil sep rest
    · rcases h2 : splitSep sep rest with _ | ⟨l', ls⟩ <;> rw [h2] at h
      · left
        rw [← (List.cons.inj h).1]
        simp
      · left
        rw [← (List.cons.inj h).1]
        simp

theorem cartesianConcat_ne_nil (part : List (List Char))
    (parts : List (List (List Char)))
    (h : ∀ p ∈ part :: parts, ∀ a ∈ p, a ≠ []) :
    ∀ x ∈ cartesianConcat (part :: parts), x ≠ [] := by
  intro x hx
  simp only [cartesianConcat, List.mem_flatMap, List.mem_map] at hx
  obtain ⟨choice, hchoice, rest, _, rfl⟩ := hx
  have hc : choice ≠ [] := h part (List.mem_cons_self part parts) choice hchoice
  simp only [ne_eq, List.append_eq_nil, not_and]
  intro hc'
  exact absurd hc' hc

theorem patternToHosts_ne_empty (q : String) (hq : q ≠ "") (hosts : List String)
    (h : patternToHosts q = .ok hosts) : ∀ s ∈ hosts, s ≠ "" := by
  have hdata : q.data ≠ [] := by
    intro hd
    exact hq (by cases q; simp_all)
  unfold patternToHosts at h
  rcases h0 : splitSep '[' q.data with _ | ⟨lit0, segs⟩ <;> rw [h0] at h
  · exact absurd h (by simp [patternFromSplit])
  · simp only [patternFromSplit] at h
    split at h
    · exact absurd h (by simp)
    · split at h
      · exact absurd h (by simp)
      · rename_i tail h1
        have hparts : ((if lit0 = [] then [] else [[lit0]]) ++ tail) ≠ [] ∧
            ∀ p ∈ (if lit0 = [] then [] else [[lit0]]) ++ tail, ∀ a ∈ p, a ≠ [] := by
          constructor
          · by_cases hl : lit0 = []
            · simp only [hl, if_true, List.nil_append]
              rcases splitSep_head_or_tail '[' q.data hdata lit0 segs h0 with h' | h'
              · exact absurd hl h'
              · rcases segs with _ | ⟨seg, rest⟩
                · exact absurd rfl h'
                · exact parseSegs_parts_ne_nil seg rest tail h1
            · simp [hl]
          · intro p hp
            rcases List.mem_append.mp hp with hp | hp
            · by_cases hl : lit0 = []
              · simp [hl] at hp
              · simp only [hl, if_false, List.mem_singleton] at hp
                subst hp
                intro a ha
                simp only [List.mem_singleton] at ha
                subst ha
                exact hl
            · exact parseSegs_ne_nil segs tail h1 p hp
        intro s hs
        rw [← Except.ok.inj h] at hs
        simp only [List.mem_map] at hs
        obtain ⟨cs, hcs, rfl⟩ := hs
        rcases hp : ((if lit0 = [] then [] else [[lit0]]) ++ tail) with _ | ⟨part, parts⟩
        · exact absurd hp hparts.1
        · rw [hp] at hcs
          have := cartesianConcat_ne_nil part parts (hp ▸ hparts.2) cs hcs
          intro hmk
          apply this
          have : (⟨cs⟩ : String).data = ("" : String).data := by rw [hmk]
          simpa using this

theorem expandPatterns_ne_empty :
    ∀ (ps : List String) (l : List String),
      expandPatterns ps = .ok l → ∀ s ∈ l, s ≠ "" := by
  intro ps
  induction ps with
  | nil =>
    intro l h
    simp only [expandPatterns] at h
    rw [← Except.ok.inj h]
    simp
  | cons p ps ih =>
    intro l h
    simp only [expandPatterns] at h
    split at h
    · exact ih l h
    · rename_i hq
      split at h
      · exact absurd h (by simp)
      · rename_i hs h1
        rcases h2 : expandPatterns ps with e | rest <;> rw [h2] at h
        · exact absurd h (by simp [Except.map])
        · simp only [Except.map] at h
          rw [← Except.ok.inj h]
          intro s hsm
          rcases List.mem_append.mp hsm with hsm | hsm
          · exact patternToHosts_ne_empty (trimSpace p) hq hs h1 s hsm
          · exact ih rest h2 s hsm

/-! ## Stable deduplication -/

theorem removeDuplStr_go (xs : List String) :
    ∀ acc : List String,
      List.foldl (fun acc x => if x ∈ acc then acc else acc ++ [x]) acc xs =
        acc ++ dedupFirst (xs.filter (fun y => decide (y ∉ acc))) := by
  induction xs with
  | nil => intro acc; simp [dedupFirst]
  | cons x xs ih =>
    intro acc
    by_cases hx : x ∈ acc
    · have hd : decide (x ∉ acc) = false := by simp [hx]
      simp only [List.foldl_cons, if_pos hx, List.filter_cons, hd, ih,
        Bool.false_eq_true, if_false]
    · have hd : decide (x ∉ acc) = true := by simp [hx]
      have hfil : xs.filter (fun y => decide (y ∉ acc ++ [x])) =
          (xs.filter (fun y => decide (y ∉ acc))).filter (fun y => decide (y ≠ x)) := by
        rw [List.filter_filter]
        apply List.filter_congr
        intro a _
        by_cases h1 : a = x <;> by_cases h2 : a ∈ acc <;> simp [h1, h2]
      simp only [List.foldl_cons, if_neg hx, ih, List.filter_cons, hd, if_true]
      rw [dedupFirst, ← hfil]
      simp

theorem removeDuplStr_eq_dedupFirst (xs : List String) :
    removeDuplStr xs = dedupFirst xs := by
  unfold removeDuplStr
  rw [removeDuplStr_go]
  have : xs.filter (fun y => decide (y ∉ ([] : List String))) = xs := by
    apply List.filter_eq_self.mpr
    intro a _
    simp
  rw [this]
  simp

theorem dedupFirst_sublist (l : List String) : List.Sublist (dedupFirst l) l := by
  induction l using dedupFirst.induct with
  | case1 => simp [dedupFirst]
  | case2 x xs ih =>
    rw [dedupFirst]
    exact List.Sublist.cons₂ x (ih.trans (List.filter_sublist xs))

theorem dedupFirst_nodup (l : List String) : (dedupFirst l).Nodup := by
  induction l using dedupFirst.induct with
  | case1 => simp [dedupFirst]
  | case2 x xs ih =>
    rw [dedupFirst]
    refine List.nodup_cons.mpr ⟨?_, ih⟩
    intro hmem
    have := (dedupFirst_sublist _).subset hmem
    simp at this

/-! ## Theorems for claim C3 -/

/-- C3: on success, the working host list equals the stable
deduplication (first occurrence kept) of the concatenation, in input
order, of all pattern expansions from the command line and from the
hosts-file lines; it has no duplicates and every element is
non-empty. -/
theorem getAllHosts_spec (cmdHosts : List String) (content : Option String)
    (hs : List String) (h : getAllHosts cmdHosts content = .ok hs) :
    (∃ l1 l2, expandPatterns cmdHosts = .ok l1 ∧
        hostsFileExpansion content = .ok l2 ∧
        hs = dedupFirst (l1 ++ l2)) ∧
    hs.Nodup ∧ ∀ s ∈ hs, s ≠ "" := by
  unfold getAllHosts at h
  split at h
  · exact absurd h (by simp)
  · rename_i l1 h1
    split at h
    · exact absurd h (by simp)
    · rename_i l2 h2
      split at h
      · exact absurd h (by simp)
      · have hhs : hs = dedupFirst (l1 ++ l2) := by
          rw [← Except.ok.inj h, removeDuplStr_eq_dedupFirst]
        have hmem : ∀ s ∈ hs, s ∈ l1 ++ l2 := fun s hsmem =>
          (dedupFirst_sublist (l1 ++ l2)).subset (hhs ▸ hsmem)
        refine ⟨⟨l1, l2, h1, h2, hhs⟩, hhs ▸ dedupFirst_nodup (l1 ++ l2), ?_⟩
        intro s hsmem
        rcases List.mem_append.mp (hmem s hsmem) with hm | hm
        · exact expandPatterns_ne_empty cmdHosts l1 h1 s hm
        · rcases content with _ | c
          · have : l2 = [] := by
              simpa [hostsFileExpansion] using (Except.ok.inj h2).symm
            simp [this] at hm
          · exact expandPatterns_ne_empty _ l2 h2 s hm

/-- Witness for C3 at the spec's own scenario:
`expandAll(["10.0.0.[1-2]", "10.0.0.1"])` keeps input order and drops
the duplicate. -/
theorem getAllHosts_spec_witness :
    getAllHosts ["10.0.0.[1-2]", "10.0.0.1"] none = .ok ["10.0.0.1", "10.0.0.2"] ∧
    (["10.0.0.1", "10.0.0.2"] : List String).Nodup ∧
    ∀ s ∈ (["10.0.0.1", "10.0.0.2"] : List String), s ≠ "" := by
  have h : getAllHosts ["10.0.0.[1-2]", "10.0.0.1"] none =
      .ok ["10.0.0.1", "10.0.0.2"] := rfl
  exact ⟨h, (getAllHosts_spec _ none _ h).2.1, (getAllHosts_spec _ none _ h).2.2⟩

/-! ## Task orchestration (`BatchRun`) -/

/-- Task kinds of the `sshtask` package. -/
inductive TaskType where
  | commandTask
  | scriptTask
  | pushTask
  | fetchTask
  deriving DecidableEq

/-- Local and pre-zipped files of a push task. -/
structure PushFiles where
  files : List String
  zipFiles : List String
  deriving DecidableEq

/-- Fields of `Task` and its configuration flags that `BatchRun`
consults before fan-out. -/
structure TaskConf where
  taskType : TaskType
  hosts : List String
  hostsFileContent : Option String
  listHosts : Bool
  command : String
  scriptFile : String
  pushFiles : Option PushFiles
  fetchFiles : List String
  dstDir : String
  deriving DecidableEq

/-- Task-type-specific precondition switch of `BatchRun`, returning
the error message it assigns to `t.err`. -/
def taskPrecondition (t : TaskConf) : Option String :=
  match t.taskType with
  | .commandTask =>
    if t.command = "" then some "need flag '-e/--execute' or '-L/--hosts.list'"
    else none
  | .scriptTask =>
    if t.scriptFile = "" then some "need flag '-e/--execute' or '-L/--hosts.list'"
    else none
  | .pushTask =>
    match t.pushFiles with
    | none => some "need flag '-f/--files' or '-L/--hosts.list'"
    | some pf =>
      if pf.files = [] then some "need flag '-f/--files' or '-L/--hosts.list'"
      else none
  | .fetchTask =>
    if t.fetchFiles = [] then some "need flag '-f/--files' or '-L/--hosts.list'"
    else if t.dstDir = "" then some "need flag '-d/--dest-path' or '-L/--hosts.list'"
    else none

/-- Pre-fan-out outcome of one `BatchRun` call. -/
inductive BatchOutcome where
  /-- `getAllHosts` failed; `t.err` is set and nothing else happens. -/
  | hostsError (msg : String)
  /-- The list-only flag was on; hosts were printed and `BatchRun`
  returned before any validation. -/
  | listed (hosts : List String)
  /-- A task precondition failed; `t.err` is set, no fan-out. -/
  | precondError (msg : String)
  /-- Validation passed; the SSH client is built and work fans out. -/
  | ran (hosts : List String)
  deriving DecidableEq

/-- Shallow embedding of the pre-fan-out control flow of
`Task.BatchRun`, in source order: host expansion first, then the
list-only flag, then the task-type preconditions. -/
def batchRunModel (t : TaskConf) : BatchOutcome :=
  match getAllHosts t.hosts t.hostsFileContent with
  | .error e => .hostsError e
  | .ok allHosts =>
    if t.listHosts then .listed allHosts
    else
      match taskPrecondition t with
      | some e => .precondError e
      | none => .ran allHosts

/-! ## Theorems for claim C4 -/

/-- C4 counterexample: a Command task with an empty command (a
failing precondition) and the list-only flag on still expands and
prints the hosts — validation does not come first, contradicting the
claimed order. -/
theorem batchRun_order_counterexample :
    batchRunModel
        ⟨.commandTask, ["a"], none, true, "", "", none, [], ""⟩ =
      .listed ["a"] ∧
    taskPrecondition
        ⟨.commandTask, ["a"], none, true, "", "", none, [], ""⟩ =
      some "need flag '-e/--execute' or '-L/--hosts.list'" := by
  exact ⟨rfl, rfl⟩

/-- C4 amended: `BatchRun` expands hosts first (an expansion failure
preempts every precondition), then honors the list-only flag
(printing hosts and returning without validating), and only then
validates the task-type preconditions; a task failing a precondition
at that point produces no fan-out. -/
theorem batchRun_order (t : TaskConf) :
    (∀ e, getAllHosts t.hosts t.hostsFileContent = .error e →
        batchRunModel t = .hostsError e) ∧
    (∀ hs, getAllHosts t.hosts t.hostsFileContent = .ok hs →
        t.listHosts = true → batchRunModel t = .listed hs) ∧
    (∀ hs e, getAllHosts t.hosts t.hostsFileContent = .ok hs →
        t.listHosts = false → taskPrecondition t = some e →
        batchRunModel t = .precondError e) ∧
    (∀ hs, getAllHosts t.hosts t.hostsFileContent = .ok hs →
        t.listHosts = false → taskPrecondition t = none →
        batchRunModel t = .ran hs) ∧
    (∀ e, taskPrecondition t = some e → t.listHosts = false →
        ∀ hs, batchRunModel t ≠ .ran hs) := by
  refine ⟨?_, ?_, ?_, ?_, ?_⟩
  · intro e he
    simp [batchRunModel, he]
  · intro hs hok hlist
    simp [batchRunModel, hok, hlist]
  · intro hs e hok hlist hpre
    simp [batchRunModel, hok, hlist, hpre]
  · intro hs hok hlist hpre
    simp [batchRunModel, hok, hlist, hpre]
  · intro e hpre hlist hs
    unfold batchRunModel
    split
    · simp
    · simp [hlist, hpre]

/-- Witness for C4's amended theorem at concrete configurations:
expansion failure preempts a failing Script precondition; a Fetch
task with files but no destination yields the precondition error and
no fan-out; a valid Command task runs. -/
theorem batchRun_order_witness :
    batchRunModel ⟨.scriptTask, [], none, false, "", "", none, [], ""⟩ =
      .hostsError "need target hosts, you can specify hosts file by flag '-H' or provide host/pattern as positional arguments" ∧
    batchRunModel ⟨.fetchTask, ["a"], none, false, "", "", none, ["f"], ""⟩ =
      .precondError "need flag '-d/--dest-path' or '-L/--hosts.list'" ∧
    batchRunModel ⟨.commandTask, ["a"], none, false, "id", "", none, [], ""⟩ =
      .ran ["a"] := by
  refine ⟨?_, ?_, ?_⟩
  · exact (batchRun_order ⟨.scriptTask, [], none, false, "", "", none, [], ""⟩).1
      _ rfl
  · exact (batchRun_order
      ⟨.fetchTask, ["a"], none, false, "", "", none, ["f"], ""⟩).2.2.1
      ["a"] _ rfl rfl rfl
  · exact (batchRun_order
      ⟨.commandTask, ["a"], none, false, "id", "", none, [], ""⟩).2.2.2.1
      ["a"] rfl rfl rfl

/-! ## Result consumption and output channels (`BatchRun` tail, `Start`) -/

/-- Status of one per-host result. -/
inductive HostStatus where
  | success
  | failure
  deriving DecidableEq

/-- One per-host result received from the worker pool. -/
structure HostResult where
  addr : String
  status : HostStatus
  message : String
  deriving DecidableEq

/-- One message sent on the two output channels. -/
inductive OutputEvent where
  /-- A `detailResult` sent on `t.detailOutput`. -/
  | detail (taskID hostname : String) (status : HostStatus) (output : String)
  /-- The `taskResult` sent on `t.taskOutput`; `elapsed` stands for
  the measured wall-clock seconds. -/
  | summary (taskID : String) (successCount failureCount elapsed : Nat)
  deriving DecidableEq

/-- Whether an output event is the task summary. -/
def isSummaryEvent : OutputEvent → Bool
  | .detail _ _ _ _ => false
  | .summary _ _ _ _ => true

/-- Shallow embedding of the result-consumption loop at the end of
`Task.BatchRun`: each received result bumps one counter and is
forwarded on the detail channel; after the loop one summary is sent
on the task channel. -/
def batchRunConsume (taskID : String) (elapsed : Nat) :
    List HostResult → Nat → Nat → List OutputEvent
  | [], successCount, failedCount =>
    [.summary taskID successCount failedCount elapsed]
  | r :: rs, successCount, failedCount =>
    .detail taskID r.addr r.status r.message ::
      (match r.status with
       | .success => batchRunConsume taskID elapsed rs (successCount + 1) failedCount
       | .failure => batchRunConsume taskID elapsed rs successCount (failedCount + 1))

/-- Number of success results in a stream. -/
def successTotal (rs : List HostResult) : Nat :=
  rs.countP (fun r => r.status = HostStatus.success)

/-- State of the two output channels together with whether a
`close of closed channel` panic has occurred. -/
structure ChanState where
  detailClosed : Bool
  taskClosed : Bool
  panicked : Bool
  deriving DecidableEq

/-- One action touching the output channels. -/
inductive ChanAction where
  /-- The timer's `log.Warnf` call. -/
  | warnLog
  /-- `close(t.detailOutput)`. -/
  | closeDetail
  /-- `close(t.taskOutput)`. -/
  | closeTask
  deriving DecidableEq

/-- Go semantics of the actions: closing an already-closed channel
panics. -/
def applyChanAction (st : ChanState) (a : ChanAction) : ChanState :=
  if st.panicked then st
  else
    match a with
    | .warnLog => st
    | .closeDetail =>
      if st.detailClosed then { st with panicked := true }
      else { st with detailClosed := true }
    | .closeTask =>
      if st.taskClosed then { st with panicked := true }
      else { st with taskClosed := true }

/-- Run a sequence of channel actions. -/
def runChanActions (st : ChanState) (as : List ChanAction) : ChanState :=
  as.foldl applyChanAction st

/-- Deferred closes of the `BatchRun` goroutine in `Start`, in their
LIFO execution order (`detailOutput` registered last, closed
first). -/
def batchRunCloseTrace : List ChanAction :=
  [.closeDetail, .closeTask]

/-- Body of the timer goroutine in `Start` after its sleep: warn,
then close both channels unconditionally. -/
def timerCloseTrace : List ChanAction :=
  [.warnLog, .closeDetail, .closeTask]

/-! ## Theorems for claim C9 -/

/-- C9: the timer goroutine closes both channels without checking
their state, so in the execution where the batch goroutine's
deferred closes complete before the timer fires, the timer's close
hits an already-closed channel and panics. -/
theorem timer_double_close_panics :
    (runChanActions ⟨false, false, false⟩
        (batchRunCloseTrace ++ timerCloseTrace)).panicked = true := by
  rfl

/-! ## Theorems for claim C5 -/

/-- Evaluation lemma for the consumption loop with arbitrary
starting counters. -/
theorem batchRunConsume_eq (taskID : String) (elapsed : Nat) :
    ∀ (rs : List HostResult) (s f : Nat),
      batchRunConsume taskID elapsed rs s f =
        (rs.map (fun r => OutputEvent.detail taskID r.addr r.status r.message)) ++
        [OutputEvent.summary taskID (s + successTotal rs)
          (f + (rs.length - successTotal rs)) elapsed] := by
  intro rs
  induction rs with
  | nil => intro s f; simp [batchRunConsume, successTotal]
  | cons r rs ih =>
    intro s f
    have hC : successTotal rs ≤ rs.length := List.countP_le_length _
    have hcons : successTotal (r :: rs) =
        successTotal rs + (if r.status = HostStatus.success then 1 else 0) := by
      simp [successTotal, List.countP_cons]
    rcases hst : r.status with _ | _
    · rw [hst] at hcons
      simp at hcons
      simp only [batchRunConsume, hst, ih, List.map_cons, List.cons_append,
        List.length_cons, hcons]
      have e1 : s + 1 + successTotal rs = s + (successTotal rs + 1) := by omega
      have e2 : f + (rs.length - successTotal rs) =
          f + (rs.length + 1 - (successTotal rs + 1)) := by omega
      rw [e1, e2]
    · rw [hst] at hcons
      simp at hcons
      simp only [batchRunConsume, hst, ih, List.map_cons, List.cons_append,
        List.length_cons, hcons]
      have e2 : f + 1 + (rs.length - successTotal rs) =
          f + (rs.length + 1 - successTotal rs) := by omega
      rw [e2]

/-- C5: when the task timeout fires (both channels still open) the
timer logs a warning and closes both sinks without panicking;
otherwise natural completion emits every detail result followed by
exactly one summary whose success and failure counts add up to the
number of per-host results received. -/
theorem task_timeout_and_summary (taskID : String) (elapsed : Nat)
    (results : List HostResult) :
    runChanActions ⟨false, false, false⟩ timerCloseTrace = ⟨true, true, false⟩ ∧
    (∃ s f, batchRunConsume taskID elapsed results 0 0 =
        (results.map (fun r => OutputEvent.detail taskID r.addr r.status r.message)) ++
        [OutputEvent.summary taskID s f elapsed] ∧
      s + f = results.length) ∧
    (batchRunConsume taskID elapsed results 0 0).countP
        (fun ev => isSummaryEvent ev) = 1 := by
  refine ⟨rfl, ⟨successTotal results, results.length - successTotal results,
      ?_, ?_⟩, ?_⟩
  · have h := batchRunConsume_eq taskID elapsed results 0 0
    simpa using h
  · have : successTotal results ≤ results.length := List.countP_le_length _
    omega
  · have h := batchRunConsume_eq taskID elapsed results 0 0
    rw [h]
    simp [List.countP_append, List.countP_map, Function.comp, isSummaryEvent]

/-! ## Sudo prompt stripping (`HandleOutput`)

The source builds the regex

`(?s).*\[sudo\] password for U: \n|(?s).*\[sudo\] U 的密码：\n`

with `U = [a-zA-Z0-9_.-]+[$]?` and applies Go
`regexp.ReplaceAllString(outputNoSpace, "")`.  Because both
alternatives start with `(?s).*` (dot matching newlines, greedy) and
end with a prompt immediately followed by `\n`, every match runs
from its starting position through the end of some prompt line's
newline, and greedy matching picks the last such line reachable by
the tried alternative; repeated non-overlapping replacement
therefore deletes exactly the text up to and including the last line
that ends in a sudo prompt and is followed by a newline.  That
effect is modelled here at line granularity: a line "matches" when
its text ends with one of the two localized prompts, and stripping
drops everything through the last such non-final line (the final
line is never followed by `\n`, the trimmed string having no
trailing newline). -/

/-- Character class of the `linuxUserRegex` fragment
`[a-zA-Z0-9_.-]`. -/
def isUserChar (c : Char) : Bool :=
  c.isAlpha || c.isDigit || c = '_' || c = '.' || c = '-'

/-- Drop one optional `'$'` (the `[$]?` suffix of the user regex),
working on the reversed character list. -/
def dropOptDollar : List Char → List Char
  | '$' :: rest => rest
  | l => l

/-- Whether the reversed characters of a line end (in forward
direction) with `"[sudo] password for " ++ user ++ ": "` for some
user matching `linuxUserRegex`. -/
def enPromptRev (rcs : List Char) : Bool :=
  match rcs with
  | ' ' :: ':' :: rest =>
    let rest1 := dropOptDollar rest
    let user := rest1.takeWhile isUserChar
    let after := rest1.dropWhile isUserChar
    user ≠ [] && (" rof drowssap ]odus[".data).isPrefixOf after
  | _ => false

/-- Whether the reversed characters of a line end (in forward
direction) with `"[sudo] " ++ user ++ " 的密码："`. -/
def cnPromptRev (rcs : List Char) : Bool :=
  if ("：码密的 ".data).isPrefixOf rcs then
    let rest1 := dropOptDollar (rcs.drop 5)
    let user := rest1.takeWhile isUserChar
    let after := rest1.dropWhile isUserChar
    user ≠ [] && (" ]odus[".data).isPrefixOf after
  else false

/-- Whether a line's text ends in one of the two localized sudo
password prompts of `sudoPromptRegex`. -/
def promptLine (l : String) : Bool :=
  enPromptRev l.data.reverse || cnPromptRev l.data.reverse

/-- Suffix strictly after the last non-final prompt line, when one
exists. -/
def stripAfterPrompt : List String → Option (List String)
  | [] => none
  | [_] => none
  | l :: rest =>
    match stripAfterPrompt rest with
    | some s => some s
    | none => if promptLine l then some rest else none

/-- Line-level effect of the regex replacement: drop everything
through the last prompt line that has a successor; keep the lines
unchanged when no such line exists. -/
def stripSudoLines (lines : List String) : List String :=
  (stripAfterPrompt lines).getD lines

/-- Shallow embedding of the output normalization in
`Task.HandleOutput`: CRLF pairs become newlines, the result is
trimmed, and the sudo prompt regex replacement is applied. -/
def handleOutputMessage (raw : String) : String :=
  joinLines (stripSudoLines (splitLines (trimSpace ⟨stripCRLF raw.data⟩)))

/-! ## Theorems for claim C6 -/

/-- Claim-side stripping following the words of C6: only the lines
matching the prompt regex are removed, all other lines are kept. -/
def specStripPromptLines (raw : String) : String :=
  joinLines ((splitLines (trimSpace ⟨stripCRLF raw.data⟩)).filter
    (fun l => !(promptLine l)))

/-- C6 counterexample: with output "A", a sudo prompt line, then
"B", the source's greedy `(?s).*` also deletes the non-prompt line
"A" preceding the prompt, so the reported message is "B" and not the
"A\nB" the claim predicts. -/
theorem handleOutput_strip_counterexample :
    handleOutputMessage "A\n[sudo] password for root: \nB" = "B" ∧
    specStripPromptLines "A\n[sudo] password for root: \nB" = "A\nB" ∧
    ("B" : String) ≠ "A\nB" := by
  refine ⟨rfl, rfl, by decide⟩

theorem stripAfterPrompt_none (lines : List String)
    (h : stripAfterPrompt lines = none) :
    ∀ l ∈ lines.dropLast, promptLine l = false := by
  induction lines with
  | nil => simp
  | cons l rest ih =>
    rcases rest with _ | ⟨l2, rest2⟩
    · simp
    · simp only [stripAfterPrompt] at h
      split at h
      · exact absurd h (by simp)
      · rename_i hrest
        split at h
        · exact absurd h (by simp)
        · rename_i hl
          intro x hx
          rcases List.mem_cons.mp (by simpa [List.dropLast] using hx) with rfl | hx2
          · simpa using hl
          · exact ih hrest x (by simpa [List.dropLast] using hx2)

theorem stripAfterPrompt_some (lines : List String) :
    ∀ s, stripAfterPrompt lines = some s →
      s.IsSuffix lines ∧ ∀ l ∈ s.dropLast, promptLine l = false := by
  induction lines with
  | nil => intro s h; simp [stripAfterPrompt] at h
  | cons l rest ih =>
    intro s h
    rcases rest with _ | ⟨l2, rest2⟩
    · simp [stripAfterPrompt] at h
    · simp only [stripAfterPrompt] at h
      split at h
      · rename_i s' hrest
        have := ih s' hrest
        rw [Option.some.inj h] at *
        exact ⟨this.1.trans (List.suffix_cons l (l2 :: rest2)), this.2⟩
      · rename_i hrest
        split at h
        · rw [← Option.some.inj h]
          exact ⟨List.suffix_cons l (l2 :: rest2),
            stripAfterPrompt_none (l2 :: rest2) hrest⟩
        · exact absurd h (by simp)

/-- C6 amended: after CRLF normalization and trimming, the reported
message consists of a suffix of the output lines — everything
through the last sudo-prompt line that is followed by a newline is
removed, including any non-prompt lines before it — and no line of
the result other than possibly its final one matches the prompt
regex (a prompt at the very end of the trimmed output survives). -/
theorem handleOutput_strip_amended (raw : String) :
    handleOutputMessage raw =
      joinLines (stripSudoLines (splitLines (trimSpace ⟨stripCRLF raw.data⟩))) ∧
    (stripSudoLines (splitLines (trimSpace ⟨stripCRLF raw.data⟩))).IsSuffix
      (splitLines (trimSpace ⟨stripCRLF raw.data⟩)) ∧
    ∀ l ∈ (stripSudoLines (splitLines (trimSpace ⟨stripCRLF raw.data⟩))).dropLast,
      promptLine l = false := by
  refine ⟨rfl, ?_, ?_⟩ <;>
    · unfold stripSudoLines
      rcases h : stripAfterPrompt (splitLines (trimSpace ⟨stripCRLF raw.data⟩)) with
        _ | s
      · first
        | exact List.suffix_refl _
        | exact stripAfterPrompt_none _ h
      · first
        | exact (stripAfterPrompt_some _ s h).1
        | exact (stripAfterPrompt_some _ s h).2

/-! ## SSH agent lifecycle (`Start` / `getSSHAuthMethods` /
`getProxySSHAuthMethods`) -/

/-- Inputs deciding whether agent connections are dialed. -/
structure AgentConfig where
  sockSet : Bool
  dialOk : Bool
  proxyConfigured : Bool
  deriving DecidableEq

/-- Observable agent state at the end of a task: the `t.sshAgent`
field, the connections dialed, and the connections closed by
`Start`'s deferred close. -/
structure AgentState where
  sshAgent : Option Nat
  opened : List Nat
  closedAtExit : List Nat
  deriving DecidableEq

/-- Shallow embedding of the agent lifecycle ordering in the source.
`NewTask` leaves `t.sshAgent` nil; `Start` tests `t.sshAgent != nil`
as its first action — before spawning the `BatchRun` goroutine that
dials the agent — and registers the deferred `Close` only then;
`getSSHAuthMethods` (and, with a proxy, `getProxySSHAuthMethods`
again) dials `SSH_AUTH_SOCK` and overwrites `t.sshAgent`; at exit
the deferred close (when registered) closes the then-current
connection. -/
def startAgentLifecycle (cfg : AgentConfig) : AgentState :=
  let deferRegistered := (none : Option Nat).isSome
  let st1 : AgentState :=
    if cfg.sockSet then
      if cfg.dialOk then ⟨some 0, [0], []⟩ else ⟨none, [], []⟩
    else ⟨none, [], []⟩
  let st2 : AgentState :=
    if cfg.proxyConfigured ∧ cfg.sockSet then
      if cfg.dialOk then
        ⟨some st1.opened.length, st1.opened ++ [st1.opened.length], []⟩
      else ⟨none, st1.opened, []⟩
    else st1
  if deferRegistered then
    { st2 with
      closedAtExit := match st2.sshAgent with | none => [] | some c => [c] }
  else st2

/-! ## Theorems for claim C7 -/

/-- C7: the nil test guarding the deferred close runs before the
agent is ever dialed, so no agent connection is closed at task exit;
whenever `SSH_AUTH_SOCK` is set and dialable at least one connection
is opened and left open, contradicting "closed exactly once at task
exit". -/
theorem agent_never_closed (cfg : AgentConfig) :
    (startAgentLifecycle cfg).closedAtExit = [] ∧
    (cfg.sockSet = true → cfg.dialOk = true →
      (startAgentLifecycle cfg).opened ≠ []) := by
  constructor
  · unfold startAgentLifecycle
    simp only [Option.isSome_none, Bool.false_eq_true, if_false]
    split
    · split <;> simp_all
    · split
      · split <;> simp_all
      · simp_all
  · intro hs hd
    unfold startAgentLifecycle
    simp only [Option.isSome_none, Bool.false_eq_true, if_false, hs, hd, if_true]
    split <;> simp

/-- Witness for C7: with the agent socket set and dialable and no
proxy, the task ends with connection 0 open and nothing closed. -/
theorem agent_never_closed_witness :
    (startAgentLifecycle ⟨true, true, false⟩).closedAtExit = [] ∧
    (startAgentLifecycle ⟨true, true, false⟩).opened ≠ [] := by
  exact ⟨(agent_never_closed ⟨true, true, false⟩).1,
    (agent_never_closed ⟨true, true, false⟩).2 rfl rfl⟩

end Gossh
